import Mathlib

/-!
Shallow embedding of the Figma remote-style-manager plugin (src/code.ts).

The plugin's core is:
  * `findLayersWithRemoteStyles` — a depth-first traversal of the scene tree
    that classifies every style binding via the host registry and accumulates
    an insertion-ordered map of remote/unresolvable styles with the layers
    referencing them;
  * `getLocalStyles` — the local-style catalog;
  * `swapStyle` — the bulk rebinding operation;
  * `importRemoteStyle` — materializing a remote style as a local one and
    rebinding.

Host interactions (style registry lookups, node lookups, setters that may
throw) are modelled by an explicit environment: the registry is a function
`String → LookupResult` (with an explicit error outcome mirroring a thrown
lookup), the node store is `String → Option NodeState`, and setter failures
are a deterministic oracle `String → BindingField → Bool`.
-/

set_option maxHeartbeats 1000000

namespace RemoteStyleManager

/-- A style-id value held by a node binding: either a plain string id or the
host's `figma.mixed` sentinel symbol. -/
inductive BVal where
  | str (s : String)
  | mixed
deriving DecidableEq, Repr

/-- The closed style-kind enumeration `'FILL' | 'TEXT' | 'EFFECT' | 'GRID'`. -/
inductive StyleKind where
  | FILL
  | TEXT
  | EFFECT
  | GRID
deriving DecidableEq, Repr

/-- One record of the `layers` array of a `RemoteStyleInfo`. -/
structure LayerRec where
  id : String
  name : String
  type : String
deriving DecidableEq, Repr

/-- The `RemoteStyleInfo` interface of src/code.ts. -/
structure RemoteStyleInfo where
  styleId : String
  styleName : String
  styleType : StyleKind
  layers : List LayerRec
deriving DecidableEq, Repr

/-- The `LocalStyleInfo` interface of src/code.ts. -/
structure LocalStyleInfo where
  id : String
  name : String
  type : StyleKind
deriving DecidableEq, Repr

/-- Outcome of `figma.getStyleByIdAsync`: a style (with its name and `remote`
flag), `null`, or a thrown host error. -/
inductive LookupResult where
  | found (name : String) (remote : Bool)
  | notFound
  | err
deriving DecidableEq, Repr

/-- A style as enumerated by `figma.getLocal*StylesAsync`. -/
structure BaseStyle where
  id : String
  name : String
  remote : Bool
deriving DecidableEq, Repr

/-- The host environment visible to the scan: the style registry and the four
local style collections. -/
structure Env where
  getStyleById : String → LookupResult
  paintStyles : List BaseStyle
  textStyles : List BaseStyle
  effectStyles : List BaseStyle
  gridStyles : List BaseStyle

/-- A scene node: id, name, type, the five optional style bindings
(`none` = the node type does not expose that property) and children. -/
inductive SceneNode where
  | mk (id name type : String)
      (fillStyleId strokeStyleId textStyleId effectStyleId gridStyleId : Option BVal)
      (children : List SceneNode)

/-- JS truthiness of a style-id value: the empty string is falsy, every other
string and the mixed symbol are truthy. -/
def bTruthy : BVal → Bool
  | BVal.str s => !(s == "")
  | BVal.mixed => true

/-- The body of `checkStyle`'s dedup-then-push against the working map,
shared by the three recording branches: ensure an entry keyed by `sid`
exists (creating it with name `nm` and kind `k`), then push the layer
record onto that entry's list. -/
def recordRemote (st : List RemoteStyleInfo) (sid nm : String) (k : StyleKind)
    (rec : LayerRec) : List RemoteStyleInfo :=
  let st1 := if st.any (fun e => e.styleId == sid) then st
             else st ++ [⟨sid, nm, k, []⟩]
  st1.map (fun e => if e.styleId == sid then { e with layers := e.layers ++ [rec] } else e)

/-- `checkStyle` of src/code.ts: skip the mixed sentinel, look the id up in
the registry; record the layer when the style is missing (`null`), when the
lookup throws, or when the style's `remote` flag is set. -/
def checkStyle (env : Env) (st : List RemoteStyleInfo) (rec : LayerRec)
    (v : BVal) (k : StyleKind) : List RemoteStyleInfo :=
  match v with
  | BVal.mixed => st
  | BVal.str sid =>
    match env.getStyleById sid with
    | LookupResult.found nm remote =>
        if remote then recordRemote st sid nm k rec else st
    | LookupResult.notFound => recordRemote st sid "Unknown Style (Remote)" k rec
    | LookupResult.err => recordRemote st sid "Unknown Style (Remote)" k rec

/-- One binding step of `traverse`: `if ('xStyleId' in node && node.xStyleId)
await checkStyle(...)`. -/
def checkOpt (env : Env) (st : List RemoteStyleInfo) (rec : LayerRec)
    (b : Option BVal) (k : StyleKind) : List RemoteStyleInfo :=
  match b with
  | none => st
  | some v => if bTruthy v then checkStyle env st rec v k else st

mutual

/-- `traverse` of src/code.ts: check the five bindings in source order
(fill, stroke — both kind FILL —, text, effect, grid), then recurse into the
children. -/
def traverse (env : Env) (st : List RemoteStyleInfo) : SceneNode → List RemoteStyleInfo
  | SceneNode.mk i nm t f s tx e g cs =>
    traverseList env
      (checkOpt env
        (checkOpt env
          (checkOpt env
            (checkOpt env
              (checkOpt env st ⟨i, nm, t⟩ f StyleKind.FILL)
              ⟨i, nm, t⟩ s StyleKind.FILL)
            ⟨i, nm, t⟩ tx StyleKind.TEXT)
          ⟨i, nm, t⟩ e StyleKind.EFFECT)
        ⟨i, nm, t⟩ g StyleKind.GRID)
      cs

/-- Sequential traversal of a list of sibling nodes. -/
def traverseList (env : Env) (st : List RemoteStyleInfo) : List SceneNode → List RemoteStyleInfo
  | [] => st
  | n :: ns => traverseList env (traverse env st n) ns

end

/-- `findLayersWithRemoteStyles`: traverse all roots (the page's children)
starting from a fresh empty map and return the map's values in insertion
order. -/
def findLayersWithRemoteStyles (env : Env) (roots : List SceneNode) : List RemoteStyleInfo :=
  traverseList env [] roots

/-- `getLocalStyles` of src/code.ts: push every non-remote style of the four
collections, in the fixed kind order FILL, TEXT, EFFECT, GRID. -/
def getLocalStyles (env : Env) : List LocalStyleInfo :=
  let s1 := env.paintStyles.foldl
    (fun acc s => if !s.remote then acc ++ [⟨s.id, s.name, StyleKind.FILL⟩] else acc) []
  let s2 := env.textStyles.foldl
    (fun acc s => if !s.remote then acc ++ [⟨s.id, s.name, StyleKind.TEXT⟩] else acc) s1
  let s3 := env.effectStyles.foldl
    (fun acc s => if !s.remote then acc ++ [⟨s.id, s.name, StyleKind.EFFECT⟩] else acc) s2
  env.gridStyles.foldl
    (fun acc s => if !s.remote then acc ++ [⟨s.id, s.name, StyleKind.GRID⟩] else acc) s3

/-- The full scan result sent in a `scan-result` message. -/
def scanResult (env : Env) (roots : List SceneNode) :
    List RemoteStyleInfo × List LocalStyleInfo :=
  (findLayersWithRemoteStyles env roots, getLocalStyles env)

/-- Two consecutive scans of the same document, as performed by the message
handler (each call builds its working map from scratch). -/
def scanTwice (env : Env) (roots : List SceneNode) :
    (List RemoteStyleInfo × List LocalStyleInfo) × (List RemoteStyleInfo × List LocalStyleInfo) :=
  (scanResult env roots, scanResult env roots)

/-! ### Mutable node view used by `swapStyle` / `importRemoteStyle` -/

/-- A value that may be the `figma.mixed` sentinel. -/
inductive MixedOr (α : Type) where
  | mixed
  | val (a : α)
deriving DecidableEq, Repr

/-- The mutable state of a node reachable through `figma.getNodeByIdAsync`:
its five style bindings plus the content properties read by
`importRemoteStyle` (paints, text properties, effects, layout grids —
payloads are opaque strings, `none` meaning the node type lacks the
property). -/
structure NodeState where
  fillStyleId : Option BVal
  strokeStyleId : Option BVal
  textStyleId : Option BVal
  effectStyleId : Option BVal
  gridStyleId : Option BVal
  ntype : String
  fills : Option (MixedOr String)
  fontSize : MixedOr String
  fontName : MixedOr String
  lineHeight : MixedOr String
  letterSpacing : MixedOr String
  textCase : MixedOr String
  textDecoration : MixedOr String
  effects : Option String
  layoutGrids : Option String
deriving DecidableEq, Repr

/-- The document's node-by-id lookup (`figma.getNodeByIdAsync`). -/
def Store : Type := String → Option NodeState

/-- The five style-binding slots of a node. -/
inductive BindingField where
  | fill
  | stroke
  | text
  | effect
  | grid
deriving DecidableEq, Repr

/-- Read one binding slot. -/
def getB (n : NodeState) : BindingField → Option BVal
  | BindingField.fill => n.fillStyleId
  | BindingField.stroke => n.strokeStyleId
  | BindingField.text => n.textStyleId
  | BindingField.effect => n.effectStyleId
  | BindingField.grid => n.gridStyleId

/-- Write one binding slot (the host setters always store the given id). -/
def setB (n : NodeState) : BindingField → BVal → NodeState
  | BindingField.fill, v => { n with fillStyleId := some v }
  | BindingField.stroke, v => { n with strokeStyleId := some v }
  | BindingField.text, v => { n with textStyleId := some v }
  | BindingField.effect, v => { n with effectStyleId := some v }
  | BindingField.grid, v => { n with gridStyleId := some v }

/-- The binding slots `swapStyle` examines for a given `styleType` string, in
source order: FILL checks fill then stroke, the other kinds one slot, and an
unrecognized string none. -/
def relevantFields : String → List BindingField
  | "FILL" => [BindingField.fill, BindingField.stroke]
  | "TEXT" => [BindingField.text]
  | "EFFECT" => [BindingField.effect]
  | "GRID" => [BindingField.grid]
  | _ => []

/-- A deterministic oracle telling which host setter calls throw. -/
def FailOracle : Type := String → BindingField → Bool

/-- The per-node body of `swapStyle`'s loop: for each relevant slot in order,
if the slot currently equals `oldId`, call the setter; a throwing setter
leaves the slot unchanged and, because the `try` wraps the whole per-node
block, aborts the remaining slots of this node (the counter keeps increments
already made for this node). -/
def swapFieldsGo (fails : FailOracle) (id oldId newId : String) :
    List BindingField → NodeState → Nat → NodeState × Nat
  | [], n, c => (n, c)
  | b :: bs, n, c =>
    if getB n b = some (BVal.str oldId) then
      if fails id b then (n, c)
      else swapFieldsGo fails id oldId newId bs (setB n b (BVal.str newId)) (c + 1)
    else swapFieldsGo fails id oldId newId bs n c

/-- Process a single live node inside `swapStyle`. -/
def swapNode (fails : FailOracle) (id : String) (n : NodeState)
    (oldId newId styleType : String) : NodeState × Nat :=
  swapFieldsGo fails id oldId newId (relevantFields styleType) n 0

/-- Point update of the node store after a setter ran. -/
def updateStore (st : Store) (id : String) (n : NodeState) : Store :=
  fun x => if x = id then some n else st x

/-- The loop of `swapStyle` over the layer-id list, threading the store and
the counter; an id that no longer resolves is skipped. -/
def swapGo (fails : FailOracle) (oldId newId styleType : String) :
    Store → Nat → List String → Store × Nat
  | st, c, [] => (st, c)
  | st, c, id :: rest =>
    match st id with
    | none => swapGo fails oldId newId styleType st c rest
    | some n =>
      let r := swapNode fails id n oldId newId styleType
      swapGo fails oldId newId styleType (updateStore st id r.1) (c + r.2) rest

/-- `swapStyle` of src/code.ts: rebind every listed layer whose relevant
binding equals `oldId` to `newId` and return the mutated store with the
count of bindings changed. -/
def swapStyle (fails : FailOracle) (st : Store) (layerIds : List String)
    (oldId newId styleType : String) : Store × Nat :=
  swapGo fails oldId newId styleType st 0 layerIds

/-! ### `importRemoteStyle` -/

/-- A local style created by `figma.create*Style()` during an import. Its
`props` are `some` of the extracted properties when the copy onto the fresh
style completed, and `none` when the copy threw after the creation, leaving
the style half-initialized in the document (name assigned, properties not). -/
structure CreatedStyle where
  kind : String
  id : String
  name : String
  props : Option String
deriving DecidableEq, Repr

/-- Extraction of the donor properties for the requested kind, mirroring the
branch conditions of `importRemoteStyle`'s loop: FILL needs a non-mixed
`fills` list, TEXT needs a TEXT node with all six text properties
individually non-mixed, EFFECT/GRID take the respective list as-is when the
node exposes it. -/
def extractProps (n : NodeState) (styleType : String) : Option String :=
  if styleType = "FILL" then
    match n.fills with
    | some (MixedOr.val p) => some p
    | _ => none
  else if styleType = "TEXT" then
    if n.ntype = "TEXT" then
      match n.fontSize, n.fontName, n.lineHeight, n.letterSpacing,
            n.textCase, n.textDecoration with
      | MixedOr.val a, MixedOr.val b, MixedOr.val c, MixedOr.val d,
        MixedOr.val e, MixedOr.val f => some (a ++ b ++ c ++ d ++ e ++ f)
      | _, _, _, _, _, _ => none
    else none
  else if styleType = "EFFECT" then n.effects
  else if styleType = "GRID" then n.layoutGrids
  else none

/-- The donor-search loop of `importRemoteStyle`, including the loop's
per-layer `try/catch`: walk the layer ids in order, skipping dead ids and
layers without extractable properties for the kind. On a qualifying layer
the new style is created first (the k-th creation receives the
host-assigned id `freshIds k`) and the `newStyle` variable is assigned, then
the extracted properties are copied onto it; when the copy throws
(`copyFails`), the catch swallows the fault, the created style stays behind
half-initialized and the loop continues with the next layer — only a
fault-free copy reaches the `break`. Returns the final value of the
`newStyle` variable together with every style created by the call, in
creation order. -/
def importLoop (store : Store) (copyFails : String → Bool)
    (styleType styleName : String) (freshIds : Nat → String) :
    List String → Nat → Option CreatedStyle → List CreatedStyle →
      Option CreatedStyle × List CreatedStyle
  | [], _, newStyle, created => (newStyle, created)
  | id :: rest, k, newStyle, created =>
    match store id with
    | none => importLoop store copyFails styleType styleName freshIds rest k newStyle created
    | some n =>
      match extractProps n styleType with
      | none => importLoop store copyFails styleType styleName freshIds rest k newStyle created
      | some p =>
        if copyFails id then
          importLoop store copyFails styleType styleName freshIds rest (k + 1)
            (some ⟨styleType, freshIds k, styleName, none⟩)
            (created ++ [⟨styleType, freshIds k, styleName, none⟩])
        else
          (some ⟨styleType, freshIds k, styleName, some p⟩,
           created ++ [⟨styleType, freshIds k, styleName, some p⟩])

/-- `importRemoteStyle` of src/code.ts: run the donor loop; if the
`newStyle` variable ended non-null (whether or not its property copy
succeeded), swap `oldId` for that style's id across the whole original
layer list, else report 0 changes. Returns the styles created by the call
together with the final store and count. -/
def importRemoteStyle (fails : FailOracle) (copyFails : String → Bool) (store : Store)
    (layerIds : List String) (styleType styleName oldId : String)
    (freshIds : Nat → String) : List CreatedStyle × Store × Nat :=
  let pr := importLoop store copyFails styleType styleName freshIds layerIds 0 none []
  match pr.1 with
  | some cs => (pr.2, swapStyle fails store layerIds oldId cs.id styleType)
  | none => (pr.2, store, 0)

/-- Whether a layer id would qualify as a donor for the requested kind. -/
def qualifies (store : Store) (styleType : String) (id : String) : Bool :=
  match store id with
  | none => false
  | some n => (extractProps n styleType).isSome

/-! ### Scan analysis: encounter lists and map keys -/

/-- A binding encounter during the traversal: the visiting layer's record,
the truthy binding value, and the kind tag it is checked under. -/
def Enc : Type := LayerRec × BVal × StyleKind

/-- Encounter contributed by one optional binding. -/
def optEnc (rec : LayerRec) (b : Option BVal) (k : StyleKind) : List Enc :=
  match b with
  | none => []
  | some v => if bTruthy v then [(rec, v, k)] else []

mutual

/-- All binding encounters of a node and its subtree, in the order the
traversal visits them. -/
def nodeEncounters : SceneNode → List Enc
  | SceneNode.mk i nm t f s tx e g cs =>
    optEnc ⟨i, nm, t⟩ f StyleKind.FILL ++ optEnc ⟨i, nm, t⟩ s StyleKind.FILL ++
    optEnc ⟨i, nm, t⟩ tx StyleKind.TEXT ++ optEnc ⟨i, nm, t⟩ e StyleKind.EFFECT ++
    optEnc ⟨i, nm, t⟩ g StyleKind.GRID ++ listEncounters cs

/-- Encounters of a sibling list. -/
def listEncounters : List SceneNode → List Enc
  | [] => []
  | n :: ns => nodeEncounters n ++ listEncounters ns

end

/-- One scan step applied to an encounter. -/
def scanStep (env : Env) (st : List RemoteStyleInfo) (e : Enc) : List RemoteStyleInfo :=
  checkStyle env st e.1 e.2.1 e.2.2

/-- Whether a lookup outcome makes the id count as remote/unresolvable. -/
def isRemoteClass : LookupResult → Bool
  | LookupResult.found _ remote => remote
  | LookupResult.notFound => true
  | LookupResult.err => true

/-- The display name the scan gives an id with the given lookup outcome. -/
def classifiedName : LookupResult → String
  | LookupResult.found nm _ => nm
  | LookupResult.notFound => "Unknown Style (Remote)"
  | LookupResult.err => "Unknown Style (Remote)"

/-- The style id an encounter records, if its classification is non-local. -/
def encNonlocalId (env : Env) (e : Enc) : Option String :=
  match e.2.1 with
  | BVal.mixed => none
  | BVal.str sid => if isRemoteClass (env.getStyleById sid) then some sid else none

/-- The key sequence of the working map. -/
def keysOf (st : List RemoteStyleInfo) : List String := st.map (fun e => e.styleId)

/-- Insertion-ordered key insert: append the key only when it is new. -/
def insertKey (ks : List String) (s : String) : List String :=
  if ks.any (fun x => x == s) then ks else ks ++ [s]

theorem checkOpt_eq_fold (env : Env) (st : List RemoteStyleInfo) (rec : LayerRec)
    (b : Option BVal) (k : StyleKind) :
    checkOpt env st rec b k = (optEnc rec b k).foldl (scanStep env) st := by
  cases b with
  | none => rfl
  | some v =>
    by_cases h : bTruthy v = true
    · simp [checkOpt, optEnc, h, scanStep]
    · simp [checkOpt, optEnc, h]

mutual

theorem traverse_eq_fold (env : Env) (st : List RemoteStyleInfo) (n : SceneNode) :
    traverse env st n = (nodeEncounters n).foldl (scanStep env) st := by
  cases n with
  | mk i nm t f s tx e g cs =>
    rw [traverse, nodeEncounters]
    rw [traverseList_eq_fold env _ cs]
    simp only [List.foldl_append]
    rw [checkOpt_eq_fold, checkOpt_eq_fold, checkOpt_eq_fold, checkOpt_eq_fold,
        checkOpt_eq_fold]

theorem traverseList_eq_fold (env : Env) (st : List RemoteStyleInfo) (ns : List SceneNode) :
    traverseList env st ns = (listEncounters ns).foldl (scanStep env) st := by
  cases ns with
  | nil => rfl
  | cons n ns =>
    rw [traverseList, listEncounters, List.foldl_append]
    rw [traverse_eq_fold env st n, traverseList_eq_fold env _ ns]

end

theorem keysOf_map_pushLayer (l : List RemoteStyleInfo) (sid : String) (rec : LayerRec) :
    keysOf (l.map (fun e =>
      if e.styleId == sid then { e with layers := e.layers ++ [rec] } else e)) = keysOf l := by
  induction l with
  | nil => rfl
  | cons e es ih =>
    simp only [List.map_cons, keysOf, List.map_cons] at ih ⊢
    by_cases h : (e.styleId == sid) = true
    · simp only [h, if_true]
      exact congrArg (List.cons e.styleId) ih
    · have h' : (e.styleId == sid) = false := by simpa using h
      simp only [h', Bool.false_eq_true, if_false]
      exact congrArg (List.cons e.styleId) ih

theorem keysOf_recordRemote (st : List RemoteStyleInfo) (sid nm : String)
    (k : StyleKind) (rec : LayerRec) :
    keysOf (recordRemote st sid nm k rec) = insertKey (keysOf st) sid := by
  have hany : (keysOf st).any (fun x => x == sid) = st.any (fun e => e.styleId == sid) := by
    induction st with
    | nil => rfl
    | cons e es ih =>
      simp only [keysOf, List.map_cons, List.any_cons] at ih ⊢
      rw [ih]
  unfold recordRemote insertKey
  rw [hany]
  by_cases h : st.any (fun e => e.styleId == sid) = true
  · simp only [h, if_true]
    exact keysOf_map_pushLayer st sid rec
  · have h' : st.any (fun e => e.styleId == sid) = false := by
      simpa using h
    simp only [h', Bool.false_eq_true, if_false]
    rw [keysOf_map_pushLayer]
    simp [keysOf]

theorem keysOf_scanStep (env : Env) (st : List RemoteStyleInfo) (e : Enc) :
    keysOf (scanStep env st e) =
      (match encNonlocalId env e with
       | some s => insertKey (keysOf st) s
       | none => keysOf st) := by
  obtain ⟨rec, v, k⟩ := e
  cases v with
  | mixed => rfl
  | str sid =>
    simp only [scanStep, checkStyle, encNonlocalId]
    cases h : env.getStyleById sid with
    | found nm remote =>
      cases remote with
      | true => simp [isRemoteClass, keysOf_recordRemote]
      | false => simp [isRemoteClass]
    | notFound => simp [isRemoteClass, keysOf_recordRemote]
    | err => simp [isRemoteClass, keysOf_recordRemote]

theorem keysOf_foldl_scanStep (env : Env) (l : List Enc) :
    ∀ st, keysOf (l.foldl (scanStep env) st) =
      (l.filterMap (encNonlocalId env)).foldl insertKey (keysOf st) := by
  induction l with
  | nil => intro st; rfl
  | cons e l ih =>
    intro st
    rw [List.foldl_cons, ih, List.filterMap_cons]
    cases h : encNonlocalId env e with
    | none =>
      have := keysOf_scanStep env st e
      rw [h] at this
      rw [this]
    | some s =>
      have := keysOf_scanStep env st e
      rw [h] at this
      rw [List.foldl_cons, this]

theorem insertKey_nodup (ks : List String) (s : String) (h : ks.Nodup) :
    (insertKey ks s).Nodup := by
  unfold insertKey
  by_cases ha : ks.any (fun x => x == s) = true
  · simpa [ha] using h
  · have hmem : s ∉ ks := by
      intro hs
      exact ha (List.any_eq_true.mpr ⟨s, hs, by simp⟩)
    have hnd : (ks ++ [s]).Nodup := by
      rw [List.nodup_append]
      refine ⟨h, List.nodup_singleton s, ?_⟩
      intro a hak has
      rw [List.mem_singleton] at has
      exact hmem (has ▸ hak)
    simpa [ha] using hnd

theorem foldl_insertKey_nodup (l : List String) :
    ∀ ks, ks.Nodup → (l.foldl insertKey ks).Nodup := by
  induction l with
  | nil => intro ks h; exact h
  | cons s l ih =>
    intro ks h
    exact ih (insertKey ks s) (insertKey_nodup ks s h)

theorem scan_keys_eq (env : Env) (roots : List SceneNode) :
    keysOf (findLayersWithRemoteStyles env roots) =
      ((listEncounters roots).filterMap (encNonlocalId env)).foldl insertKey [] := by
  rw [findLayersWithRemoteStyles, traverseList_eq_fold, keysOf_foldl_scanStep]
  rfl

theorem scan_keys_nodup (env : Env) (roots : List SceneNode) :
    (keysOf (findLayersWithRemoteStyles env roots)).Nodup := by
  rw [scan_keys_eq]
  exact foldl_insertKey_nodup _ [] List.nodup_nil

/-! ### Concrete inputs for counterexamples and witnesses -/

/-- An environment whose registry finds nothing and which owns no styles. -/
def cexEnv : Env := ⟨fun _ => LookupResult.notFound, [], [], [], []⟩

/-- A single rectangle whose fill and stroke both reference style id S:1. -/
def cexNode : SceneNode :=
  SceneNode.mk "L1" "layer1" "RECTANGLE"
    (some (BVal.str "S:1")) (some (BVal.str "S:1")) none none none []

/-! ### Claim theorems -/

/-- C2, as stated: every entry produced by a scan has a layers list with no
two records sharing a layer id. Refuted: a node whose fill and stroke both
reference the same unresolvable style id is pushed once per binding, so its
single entry holds two records with the same layer id. -/
theorem scan_layers_dup_layerId_cex :
    ¬ (∀ e ∈ findLayersWithRemoteStyles cexEnv [cexNode],
        (e.layers.map (fun l => l.id)).Nodup) := by
  decide

/-- C2, amended: deduplication in a scan is per style entry, not per layer
record — for every scan, no two produced entries share a style id (while a
layers list may repeat a layer id, once per binding occurrence). -/
theorem scan_styleIds_nodup (env : Env) (roots : List SceneNode) :
    ((findLayersWithRemoteStyles env roots).map (fun e => e.styleId)).Nodup :=
  scan_keys_nodup env roots

/-- C7: scanning the same document twice in a row yields identical
remote-style and local-style reports — each scan builds its working map from
scratch, so the result is a pure function of the document and registry. -/
theorem scan_deterministic (env : Env) (roots : List SceneNode) :
    (scanTwice env roots).1 = (scanTwice env roots).2 := rfl

/-- C8: the reported list has exactly one entry per distinct non-local style
identifier encountered, in first-insertion order: its key sequence is the
first-occurrence dedup of the traversal-ordered sequence of encountered
non-local ids, with no duplicates. -/
theorem scan_entries_first_insertion_order (env : Env) (roots : List SceneNode) :
    (findLayersWithRemoteStyles env roots).map (fun e => e.styleId) =
        ((listEncounters roots).filterMap (encNonlocalId env)).foldl insertKey []
      ∧ ((findLayersWithRemoteStyles env roots).map (fun e => e.styleId)).Nodup :=
  ⟨scan_keys_eq env roots, scan_keys_nodup env roots⟩

/-- C9: the local-style catalog is exactly the concatenation, in the fixed
kind order FILL, TEXT, EFFECT, GRID, of each collection filtered to styles
whose remote flag is unset, tagged with the kind, in native enumeration
order. -/
theorem getLocalStyles_spec (env : Env) :
    getLocalStyles env =
      (env.paintStyles.filter (fun s => !s.remote)).map
        (fun s => ⟨s.id, s.name, StyleKind.FILL⟩) ++
      (env.textStyles.filter (fun s => !s.remote)).map
        (fun s => ⟨s.id, s.name, StyleKind.TEXT⟩) ++
      (env.effectStyles.filter (fun s => !s.remote)).map
        (fun s => ⟨s.id, s.name, StyleKind.EFFECT⟩) ++
      (env.gridStyles.filter (fun s => !s.remote)).map
        (fun s => ⟨s.id, s.name, StyleKind.GRID⟩) := by
  have key : ∀ (l : List BaseStyle) (k : StyleKind) (acc : List LocalStyleInfo),
      l.foldl (fun acc s => if !s.remote then acc ++ [⟨s.id, s.name, k⟩] else acc) acc =
        acc ++ (l.filter (fun s => !s.remote)).map (fun s => ⟨s.id, s.name, k⟩) := by
    intro l k
    induction l with
    | nil => intro acc; simp
    | cons s l ih =>
      intro acc
      by_cases h : (!s.remote) = true
      · simp only [List.foldl_cons, h, if_true, List.filter_cons, List.map_cons]
        rw [ih]
        simp
      · have h' : (!s.remote) = false := by simpa using h
        simp only [List.foldl_cons, h', Bool.false_eq_true, if_false, List.filter_cons]
        rw [ih]
  simp only [getLocalStyles]
  rw [key, key, key, key]
  simp [List.append_assoc]

/-- C10: a binding holding the host's mixed sentinel is silently skipped —
`checkStyle` leaves the working map unchanged for every environment (so no
registry lookup can influence the result), and a traversal of a node with a
mixed fill binding equals the traversal of the same node without that
binding. -/
theorem mixed_binding_skipped (env : Env) :
    (∀ (st : List RemoteStyleInfo) (rec : LayerRec) (k : StyleKind),
        checkStyle env st rec BVal.mixed k = st)
    ∧ (∀ (st : List RemoteStyleInfo) (i nm t : String)
        (s tx e g : Option BVal) (cs : List SceneNode),
        traverse env st (SceneNode.mk i nm t (some BVal.mixed) s tx e g cs) =
          traverse env st (SceneNode.mk i nm t none s tx e g cs)) := by
  constructor
  · intro st rec k
    rfl
  · intro st i nm t s tx e g cs
    rw [traverse, traverse]
    rfl

/-- C5: when the registry lookup for a style id throws, the fault is
absorbed: the id is treated as remote, an entry with the placeholder name
is ensured, and the referencing layer record is appended — the entry found
for the id after the check is the prior entry with the record pushed, or a
fresh placeholder entry holding just the record. -/
theorem checkStyle_err_recovers (env : Env) (st : List RemoteStyleInfo)
    (rec : LayerRec) (k : StyleKind) (s : String)
    (h : env.getStyleById s = LookupResult.err) :
    (checkStyle env st rec (BVal.str s) k).find? (fun e => e.styleId == s) =
      some (match st.find? (fun e => e.styleId == s) with
            | some e => { e with layers := e.layers ++ [rec] }
            | none => ⟨s, "Unknown Style (Remote)", k, [rec]⟩) := by
  have hpush : ∀ (l : List RemoteStyleInfo),
      (l.map (fun e =>
        if e.styleId == s then { e with layers := e.layers ++ [rec] } else e)).find?
          (fun e => e.styleId == s) =
        (l.find? (fun e => e.styleId == s)).map
          (fun e => { e with layers := e.layers ++ [rec] }) := by
    intro l
    induction l with
    | nil => rfl
    | cons e es ih =>
      by_cases he : (e.styleId == s) = true
      · simp only [List.map_cons, he, if_true, List.find?]
        simp [he]
      · have he' : (e.styleId == s) = false := by simpa using he
        simp only [List.map_cons, he', Bool.false_eq_true, if_false, List.find?]
        exact ih
  have hrec : ∀ (l : List RemoteStyleInfo) (nm : String),
      (recordRemote l s nm k rec).find? (fun e => e.styleId == s) =
        some (match l.find? (fun e => e.styleId == s) with
              | some e => { e with layers := e.layers ++ [rec] }
              | none => ⟨s, nm, k, [rec]⟩) := by
    intro l nm
    unfold recordRemote
    by_cases hl : l.any (fun e => e.styleId == s) = true
    · simp only [hl, if_true]
      rw [hpush]
      obtain ⟨e0, he0m, he0p⟩ := List.any_eq_true.mp hl
      cases hf : l.find? (fun e => e.styleId == s) with
      | none => exact absurd he0p (by simpa using List.find?_eq_none.mp hf e0 he0m)
      | some e1 => rfl
    · have hl' : l.any (fun e => e.styleId == s) = false := by simpa using hl
      have hnone : l.find? (fun e => e.styleId == s) = none := by
        rw [List.find?_eq_none]
        intro e hme
        simpa using List.any_eq_false.mp hl' e hme
      simp only [hl', Bool.false_eq_true, if_false]
      rw [List.map_append, List.find?_append, hpush, hnone]
      simp [List.find?]
  simp only [checkStyle, h]
  exact hrec st "Unknown Style (Remote)"

/-- Witness for C5 at a throwing registry. -/
def errEnv : Env := ⟨fun _ => LookupResult.err, [], [], [], []⟩

theorem checkStyle_err_recovers_witness :
    (checkStyle errEnv [] ⟨"L1", "layer1", "RECTANGLE"⟩ (BVal.str "S:9") StyleKind.FILL).find?
        (fun e => e.styleId == "S:9") =
      some ⟨"S:9", "Unknown Style (Remote)", StyleKind.FILL, [⟨"L1", "layer1", "RECTANGLE"⟩]⟩ :=
  checkStyle_err_recovers errEnv [] ⟨"L1", "layer1", "RECTANGLE"⟩ StyleKind.FILL "S:9" rfl

/-! ### Node-level lemmas about `swapFieldsGo` -/

/-- The five binding slots. -/
def allFields : List BindingField :=
  [BindingField.fill, BindingField.stroke, BindingField.text,
   BindingField.effect, BindingField.grid]

theorem getB_setB_same (n : NodeState) (b : BindingField) (v : BVal) :
    getB (setB n b v) b = some v := by
  cases b <;> rfl

theorem getB_setB_ne (n : NodeState) (b b' : BindingField) (v : BVal) (h : b' ≠ b) :
    getB (setB n b v) b' = getB n b' := by
  cases b <;> cases b' <;> first
    | rfl
    | exact absurd rfl h

theorem relevantFields_nodup (t : String) : (relevantFields t).Nodup := by
  unfold relevantFields
  split <;> decide

theorem swapFieldsGo_nonmatch (fails : FailOracle) (id oldId newId : String) :
    ∀ (bs : List BindingField) (n : NodeState) (c : Nat) (b : BindingField),
      getB n b ≠ some (BVal.str oldId) →
      getB (swapFieldsGo fails id oldId newId bs n c).1 b = getB n b := by
  intro bs
  induction bs with
  | nil => intro n c b _; rfl
  | cons b0 bs ih =>
    intro n c b h
    simp only [swapFieldsGo]
    by_cases h0 : getB n b0 = some (BVal.str oldId)
    · rw [if_pos h0]
      by_cases hf : fails id b0 = true
      · rw [if_pos hf]
      · rw [if_neg hf]
        have hbne : b ≠ b0 := fun he => h (he ▸ h0)
        have h1 : getB (setB n b0 (BVal.str newId)) b = getB n b :=
          getB_setB_ne n b0 b (BVal.str newId) hbne
        rw [ih _ _ b (by rw [h1]; exact h), h1]
    · rw [if_neg h0]
      exact ih n c b h

theorem swapFieldsGo_notin (fails : FailOracle) (id oldId newId : String) :
    ∀ (bs : List BindingField) (n : NodeState) (c : Nat) (b : BindingField),
      b ∉ bs →
      getB (swapFieldsGo fails id oldId newId bs n c).1 b = getB n b := by
  intro bs
  induction bs with
  | nil => intro n c b _; rfl
  | cons b0 bs ih =>
    intro n c b h
    have hbne : b ≠ b0 := fun he => h (he ▸ List.mem_cons_self b0 bs)
    have hbs : b ∉ bs := fun he => h (List.mem_cons_of_mem b0 he)
    simp only [swapFieldsGo]
    by_cases h0 : getB n b0 = some (BVal.str oldId)
    · rw [if_pos h0]
      by_cases hf : fails id b0 = true
      · rw [if_pos hf]
      · rw [if_neg hf]
        rw [ih _ _ b hbs, getB_setB_ne n b0 b (BVal.str newId) hbne]
    · rw [if_neg h0]
      exact ih n c b hbs

theorem swapFieldsGo_changed (fails : FailOracle) (id oldId newId : String) :
    ∀ (bs : List BindingField) (n : NodeState) (c : Nat) (b : BindingField),
      getB (swapFieldsGo fails id oldId newId bs n c).1 b ≠ getB n b →
      getB n b = some (BVal.str oldId) ∧
        getB (swapFieldsGo fails id oldId newId bs n c).1 b = some (BVal.str newId) := by
  intro bs
  induction bs with
  | nil => intro n c b h; exact absurd rfl h
  | cons b0 bs ih =>
    intro n c b h
    simp only [swapFieldsGo] at h ⊢
    by_cases h0 : getB n b0 = some (BVal.str oldId)
    · rw [if_pos h0] at h ⊢
      by_cases hf : fails id b0 = true
      · rw [if_pos hf] at h
        exact absurd rfl h
      · rw [if_neg hf] at h ⊢
        by_cases hb : b = b0
        · subst hb
          refine ⟨h0, ?_⟩
          by_cases hch : getB (swapFieldsGo fails id oldId newId bs
              (setB n b (BVal.str newId)) (c + 1)).1 b
                = getB (setB n b (BVal.str newId)) b
          · rw [hch, getB_setB_same]
          · exact (ih _ _ b hch).2
        · have h1 : getB (setB n b0 (BVal.str newId)) b = getB n b :=
            getB_setB_ne n b0 b (BVal.str newId) hb
          have h' : getB (swapFieldsGo fails id oldId newId bs
              (setB n b0 (BVal.str newId)) (c + 1)).1 b
                ≠ getB (setB n b0 (BVal.str newId)) b := by
            rw [h1]; exact h
          obtain ⟨ha, hb'⟩ := ih _ _ b h'
          rw [h1] at ha
          exact ⟨ha, hb'⟩
    · rw [if_neg h0] at h ⊢
      exact ih n c b h

theorem filter_length_add {α : Type} (l : List α) (p q d : α → Bool)
    (h : ∀ b ∈ l, (d b = true → p b = true ∧ q b = false) ∧ (d b = false → p b = q b)) :
    (l.filter p).length = (l.filter q).length + (l.filter d).length := by
  induction l with
  | nil => rfl
  | cons a l ih =>
    have ha := h a (List.mem_cons_self a l)
    have hrest := fun b hb => h b (List.mem_cons_of_mem a hb)
    cases hd : d a with
    | true =>
      obtain ⟨hp, hq⟩ := ha.1 hd
      simp only [List.filter_cons, hp, hd, hq, Bool.false_eq_true, if_true, if_false,
        List.length_cons]
      rw [ih hrest]
      omega
    | false =>
      have hpq := ha.2 hd
      cases hp : p a with
      | true =>
        simp only [List.filter_cons, hp, hd, ← hpq, Bool.false_eq_true, if_true, if_false,
          List.length_cons]
        rw [ih hrest]
        omega
      | false =>
        simp only [List.filter_cons, hp, hd, ← hpq, Bool.false_eq_true, if_false]
        exact ih hrest

theorem swapFieldsGo_count (fails : FailOracle) (id oldId newId : String)
    (hne : oldId ≠ newId) :
    ∀ (bs : List BindingField), bs.Nodup → ∀ (n : NodeState) (c : Nat),
      (swapFieldsGo fails id oldId newId bs n c).2 =
        c + (allFields.filter (fun b =>
          decide (getB (swapFieldsGo fails id oldId newId bs n c).1 b ≠ getB n b))).length := by
  intro bs
  induction bs with
  | nil =>
    intro _ n c
    simp [swapFieldsGo]
  | cons b0 bs ih =>
    intro hnd n c
    have hb0 : b0 ∉ bs := (List.nodup_cons.mp hnd).1
    have hnd' : bs.Nodup := (List.nodup_cons.mp hnd).2
    by_cases h0 : getB n b0 = some (BVal.str oldId)
    · by_cases hf : fails id b0 = true
      · have hstep : swapFieldsGo fails id oldId newId (b0 :: bs) n c = (n, c) := by
          simp only [swapFieldsGo, if_pos h0, if_pos hf]
        rw [hstep]
        simp
      · have hstep : swapFieldsGo fails id oldId newId (b0 :: bs) n c =
            swapFieldsGo fails id oldId newId bs (setB n b0 (BVal.str newId)) (c + 1) := by
          simp only [swapFieldsGo, if_pos h0, if_neg hf]
        rw [hstep]
        rw [ih hnd' (setB n b0 (BVal.str newId)) (c + 1)]
        have hfix : getB (swapFieldsGo fails id oldId newId bs
            (setB n b0 (BVal.str newId)) (c + 1)).1 b0 = some (BVal.str newId) := by
          rw [swapFieldsGo_notin fails id oldId newId bs _ _ b0 hb0, getB_setB_same]
        have hlen : (allFields.filter (fun b =>
            decide (getB (swapFieldsGo fails id oldId newId bs
              (setB n b0 (BVal.str newId)) (c + 1)).1 b ≠ getB n b))).length =
          (allFields.filter (fun b =>
            decide (getB (swapFieldsGo fails id oldId newId bs
              (setB n b0 (BVal.str newId)) (c + 1)).1 b
                ≠ getB (setB n b0 (BVal.str newId)) b))).length +
          (allFields.filter (fun b => decide (b = b0))).length := by
          apply filter_length_add
          intro b _
          constructor
          · intro hd
            have hb : b = b0 := of_decide_eq_true hd
            subst hb
            constructor
            · rw [decide_eq_true_eq]
              rw [hfix, h0]
              intro hcon
              exact hne (by injection hcon with hv; injection hv with hs; exact hs.symm)
            · rw [decide_eq_false_iff_not]
              rw [hfix, getB_setB_same]
              exact fun hcon => hcon rfl
          · intro hd
            have hb : b ≠ b0 := of_decide_eq_false hd
            rw [getB_setB_ne n b0 b (BVal.str newId) hb]
        have hone : (allFields.filter (fun b => decide (b = b0))).length = 1 := by
          cases b0 <;> rfl
        rw [hlen, hone]
        omega
    · have hstep : swapFieldsGo fails id oldId newId (b0 :: bs) n c =
          swapFieldsGo fails id oldId newId bs n c := by
        simp only [swapFieldsGo, if_neg h0]
      rw [hstep]
      exact ih hnd' n c

theorem swapFieldsGo_stable (fails : FailOracle) (id oldId newId : String)
    (hne : oldId ≠ newId) :
    ∀ (bs : List BindingField), bs.Nodup → ∀ (n : NodeState) (c c2 : Nat),
      swapFieldsGo fails id oldId newId bs
          ((swapFieldsGo fails id oldId newId bs n c).1) c2 =
        ((swapFieldsGo fails id oldId newId bs n c).1, c2) := by
  intro bs
  induction bs with
  | nil => intro _ n c c2; rfl
  | cons b0 bs ih =>
    intro hnd n c c2
    have hb0 : b0 ∉ bs := (List.nodup_cons.mp hnd).1
    have hnd' : bs.Nodup := (List.nodup_cons.mp hnd).2
    by_cases h0 : getB n b0 = some (BVal.str oldId)
    · by_cases hf : fails id b0 = true
      · have hstep : swapFieldsGo fails id oldId newId (b0 :: bs) n c = (n, c) := by
          simp only [swapFieldsGo, if_pos h0, if_pos hf]
        rw [hstep]
        simp only [swapFieldsGo, if_pos h0, if_pos hf]
      · have hstep : (swapFieldsGo fails id oldId newId (b0 :: bs) n c) =
            swapFieldsGo fails id oldId newId bs (setB n b0 (BVal.str newId)) (c + 1) := by
          simp only [swapFieldsGo, if_pos h0, if_neg hf]
        rw [hstep]
        have hv : getB (swapFieldsGo fails id oldId newId bs
            (setB n b0 (BVal.str newId)) (c + 1)).1 b0 = some (BVal.str newId) := by
          rw [swapFieldsGo_notin fails id oldId newId bs _ _ b0 hb0, getB_setB_same]
        have hv' : getB (swapFieldsGo fails id oldId newId bs
            (setB n b0 (BVal.str newId)) (c + 1)).1 b0 ≠ some (BVal.str oldId) := by
          rw [hv]
          intro hcon
          exact hne (by injection hcon with hx; injection hx with hs; exact hs.symm)
        conv_lhs => rw [swapFieldsGo, if_neg hv']
        exact ih hnd' _ (c + 1) c2
    · have hstep : (swapFieldsGo fails id oldId newId (b0 :: bs) n c) =
          swapFieldsGo fails id oldId newId bs n c := by
        simp only [swapFieldsGo, if_neg h0]
      rw [hstep]
      have hv : getB (swapFieldsGo fails id oldId newId bs n c).1 b0 = getB n b0 :=
        swapFieldsGo_nonmatch fails id oldId newId bs n c b0 h0
      have hv' : getB (swapFieldsGo fails id oldId newId bs n c).1 b0
          ≠ some (BVal.str oldId) := by rw [hv]; exact h0
      conv_lhs => rw [swapFieldsGo, if_neg hv']
      exact ih hnd' n c c2

/-! ### Store-level lemmas about `swapGo` -/

/-- The value of one binding slot of one node of the store. -/
def getBind (st : Store) (id : String) (b : BindingField) : Option (Option BVal) :=
  (st id).map (fun n => getB n b)

/-- How many binding slots of the node `id` differ between two stores. -/
def changedAt (st st2 : Store) (id : String) : Nat :=
  (allFields.filter (fun b => decide (getBind st2 id b ≠ getBind st id b))).length

theorem swapGo_dead (fails : FailOracle) (oldId newId styleType : String) :
    ∀ (l : List String) (st : Store) (c : Nat) (id : String), st id = none →
      (swapGo fails oldId newId styleType st c l).1 id = none := by
  intro l
  induction l with
  | nil => intro st c id h; exact h
  | cons id0 rest ih =>
    intro st c id h
    cases hs : st id0 with
    | none =>
      have hstep : swapGo fails oldId newId styleType st c (id0 :: rest) =
          swapGo fails oldId newId styleType st c rest := by
        simp only [swapGo, hs]
      rw [hstep]
      exact ih st c id h
    | some n =>
      have hstep : swapGo fails oldId newId styleType st c (id0 :: rest) =
          swapGo fails oldId newId styleType
            (updateStore st id0 (swapNode fails id0 n oldId newId styleType).1)
            (c + (swapNode fails id0 n oldId newId styleType).2) rest := by
        simp only [swapGo, hs]
      rw [hstep]
      apply ih
      have hne : id ≠ id0 := by
        intro he
        rw [he, hs] at h
        exact Option.noConfusion h
      unfold updateStore
      simp only [if_neg hne]
      exact h

theorem swapGo_unlisted (fails : FailOracle) (oldId newId styleType : String) :
    ∀ (l : List String) (st : Store) (c : Nat) (id : String), id ∉ l →
      (swapGo fails oldId newId styleType st c l).1 id = st id := by
  intro l
  induction l with
  | nil => intro st c id _; rfl
  | cons id0 rest ih =>
    intro st c id h
    have hne : id ≠ id0 := fun he => h (he ▸ List.mem_cons_self id0 rest)
    have hrest : id ∉ rest := fun he => h (List.mem_cons_of_mem id0 he)
    cases hs : st id0 with
    | none =>
      have hstep : swapGo fails oldId newId styleType st c (id0 :: rest) =
          swapGo fails oldId newId styleType st c rest := by
        simp only [swapGo, hs]
      rw [hstep]
      exact ih st c id hrest
    | some n =>
      have hstep : swapGo fails oldId newId styleType st c (id0 :: rest) =
          swapGo fails oldId newId styleType
            (updateStore st id0 (swapNode fails id0 n oldId newId styleType).1)
            (c + (swapNode fails id0 n oldId newId styleType).2) rest := by
        simp only [swapGo, hs]
      rw [hstep, ih _ _ id hrest]
      unfold updateStore
      simp only [if_neg hne]

theorem swapGo_freeze (fails : FailOracle) (oldId newId styleType : String) :
    ∀ (l : List String) (st : Store) (c : Nat) (id : String) (b : BindingField),
      getBind st id b ≠ some (some (BVal.str oldId)) →
      getBind (swapGo fails oldId newId styleType st c l).1 id b = getBind st id b := by
  intro l
  induction l with
  | nil => intro st c id b _; rfl
  | cons id0 rest ih =>
    intro st c id b h
    cases hs : st id0 with
    | none =>
      have hstep : swapGo fails oldId newId styleType st c (id0 :: rest) =
          swapGo fails oldId newId styleType st c rest := by
        simp only [swapGo, hs]
      rw [hstep]
      exact ih st c id b h
    | some n =>
      have hstep : swapGo fails oldId newId styleType st c (id0 :: rest) =
          swapGo fails oldId newId styleType
            (updateStore st id0 (swapNode fails id0 n oldId newId styleType).1)
            (c + (swapNode fails id0 n oldId newId styleType).2) rest := by
        simp only [swapGo, hs]
      rw [hstep]
      by_cases hid : id = id0
      · subst hid
        have hn : getB n b ≠ some (BVal.str oldId) := by
          intro hc
          apply h
          unfold getBind
          rw [hs]
          exact congrArg some hc
        have hn' : getB (swapNode fails id n oldId newId styleType).1 b = getB n b :=
          swapFieldsGo_nonmatch fails id oldId newId (relevantFields styleType) n 0 b hn
        have hub : getBind (updateStore st id (swapNode fails id n oldId newId styleType).1)
            id b = getBind st id b := by
          simp [getBind, updateStore, hs, hn']
        rw [ih _ _ id b (by rw [hub]; exact h), hub]
      · have hub : getBind (updateStore st id0 (swapNode fails id0 n oldId newId styleType).1)
            id b = getBind st id b := by
          simp [getBind, updateStore, hid]
        rw [ih _ _ id b (by rw [hub]; exact h), hub]

theorem swapGo_changed_store (fails : FailOracle) (oldId newId styleType : String) :
    ∀ (l : List String) (st : Store) (c : Nat) (id : String) (b : BindingField),
      getBind (swapGo fails oldId newId styleType st c l).1 id b ≠ getBind st id b →
      getBind st id b = some (some (BVal.str oldId)) ∧
        getBind (swapGo fails oldId newId styleType st c l).1 id b
          = some (some (BVal.str newId)) := by
  intro l
  induction l with
  | nil => intro st c id b h; exact absurd rfl h
  | cons id0 rest ih =>
    intro st c id b h
    cases hs : st id0 with
    | none =>
      have hstep : swapGo fails oldId newId styleType st c (id0 :: rest) =
          swapGo fails oldId newId styleType st c rest := by
        simp only [swapGo, hs]
      rw [hstep] at h ⊢
      exact ih st c id b h
    | some n =>
      have hstep : swapGo fails oldId newId styleType st c (id0 :: rest) =
          swapGo fails oldId newId styleType
            (updateStore st id0 (swapNode fails id0 n oldId newId styleType).1)
            (c + (swapNode fails id0 n oldId newId styleType).2) rest := by
        simp only [swapGo, hs]
      rw [hstep] at h ⊢
      by_cases hid : id = id0
      · subst hid
        have hub : getBind (updateStore st id (swapNode fails id n oldId newId styleType).1)
            id b = some (getB (swapNode fails id n oldId newId styleType).1 b) := by
          simp [getBind, updateStore]
        have hv0 : getBind st id b = some (getB n b) := by
          simp [getBind, hs]
        by_cases hch : getBind (swapGo fails oldId newId styleType
            (updateStore st id (swapNode fails id n oldId newId styleType).1)
            (c + (swapNode fails id n oldId newId styleType).2) rest).1 id b =
              getBind (updateStore st id (swapNode fails id n oldId newId styleType).1) id b
        · rw [hch] at h ⊢
          rw [hub] at h ⊢
          rw [hv0] at h ⊢
          have hnch : getB (swapNode fails id n oldId newId styleType).1 b ≠ getB n b := by
            intro hc
            exact h (by rw [hc])
          obtain ⟨ha, hb'⟩ :=
            swapFieldsGo_changed fails id oldId newId (relevantFields styleType) n 0 b hnch
          exact ⟨by rw [ha], congrArg some hb'⟩
        · obtain ⟨ha, hb'⟩ := ih _ _ id b hch
          rw [hub] at ha
          have hvn : getB (swapNode fails id n oldId newId styleType).1 b
              = some (BVal.str oldId) := Option.some.inj ha
          constructor
          · rw [hv0]
            by_cases hnch : getB (swapNode fails id n oldId newId styleType).1 b = getB n b
            · rw [← hnch, hvn]
            · obtain ⟨ha2, _⟩ :=
                swapFieldsGo_changed fails id oldId newId (relevantFields styleType) n 0 b hnch
              rw [ha2]
          · exact hb'
      · have hub : getBind (updateStore st id0 (swapNode fails id0 n oldId newId styleType).1)
            id b = getBind st id b := by
          simp [getBind, updateStore, hid]
        rw [← hub]
        exact ih _ _ id b (by rw [hub]; exact h)

theorem swapGo_notrelevant (fails : FailOracle) (oldId newId styleType : String) :
    ∀ (l : List String) (st : Store) (c : Nat) (id : String) (b : BindingField),
      b ∉ relevantFields styleType →
      getBind (swapGo fails oldId newId styleType st c l).1 id b = getBind st id b := by
  intro l
  induction l with
  | nil => intro st c id b _; rfl
  | cons id0 rest ih =>
    intro st c id b h
    cases hs : st id0 with
    | none =>
      have hstep : swapGo fails oldId newId styleType st c (id0 :: rest) =
          swapGo fails oldId newId styleType st c rest := by
        simp only [swapGo, hs]
      rw [hstep]
      exact ih st c id b h
    | some n =>
      have hstep : swapGo fails oldId newId styleType st c (id0 :: rest) =
          swapGo fails oldId newId styleType
            (updateStore st id0 (swapNode fails id0 n oldId newId styleType).1)
            (c + (swapNode fails id0 n oldId newId styleType).2) rest := by
        simp only [swapGo, hs]
      rw [hstep, ih _ _ id b h]
      by_cases hid : id = id0
      · subst hid
        have hn' : getB (swapNode fails id n oldId newId styleType).1 b = getB n b :=
          swapFieldsGo_notin fails id oldId newId (relevantFields styleType) n 0 b h
        simp [getBind, updateStore, hs, hn']
      · simp [getBind, updateStore, hid]

theorem changedAt_zero_of_eq (st fin : Store) (id : String) (h : fin id = st id) :
    changedAt st fin id = 0 := by
  unfold changedAt getBind
  rw [h]
  simp

theorem changedAt_congr_base (st st2 fin : Store) (id : String) (h : st id = st2 id) :
    changedAt st fin id = changedAt st2 fin id := by
  unfold changedAt getBind
  rw [h]

theorem changedAt_triangle (fails : FailOracle) (oldId newId styleType : String)
    (hne : oldId ≠ newId) (st : Store) (id0 : String) (n : NodeState)
    (hs : st id0 = some n) (fin : Store)
    (hfrz : ∀ b, getBind (updateStore st id0
        (swapNode fails id0 n oldId newId styleType).1) id0 b ≠
          some (some (BVal.str oldId)) →
      getBind fin id0 b = getBind (updateStore st id0
        (swapNode fails id0 n oldId newId styleType).1) id0 b) :
    changedAt st fin id0 =
      changedAt (updateStore st id0 (swapNode fails id0 n oldId newId styleType).1)
          fin id0 +
        (swapNode fails id0 n oldId newId styleType).2 := by
  have hupd0 : (updateStore st id0 (swapNode fails id0 n oldId newId styleType).1) id0 =
      some (swapNode fails id0 n oldId newId styleType).1 := by
    unfold updateStore
    rw [if_pos rfl]
  have hdc : (swapNode fails id0 n oldId newId styleType).2 =
      (allFields.filter (fun b =>
        decide (getB (swapNode fails id0 n oldId newId styleType).1 b ≠ getB n b))).length := by
    have := swapFieldsGo_count fails id0 oldId newId hne (relevantFields styleType)
      (relevantFields_nodup styleType) n 0
    simpa [swapNode] using this
  unfold changedAt
  rw [hdc]
  apply filter_length_add
  intro b _
  constructor
  · intro hd
    have hnch : getB (swapNode fails id0 n oldId newId styleType).1 b ≠ getB n b :=
      of_decide_eq_true hd
    obtain ⟨hold, hnew⟩ :=
      swapFieldsGo_changed fails id0 oldId newId (relevantFields styleType) n 0 b hnch
    have hnoteq : some (some (BVal.str newId)) ≠ some (some (BVal.str oldId)) := by
      intro hcon
      apply hne
      have h1 := Option.some.inj hcon
      have h2 := Option.some.inj h1
      exact (BVal.str.inj h2).symm
    have hb1 : getBind (updateStore st id0
        (swapNode fails id0 n oldId newId styleType).1) id0 b =
          some (some (BVal.str newId)) := by
      unfold getBind
      rw [hupd0]
      exact congrArg some hnew
    have hfin : getBind fin id0 b = some (some (BVal.str newId)) := by
      rw [hfrz b (by rw [hb1]; exact hnoteq)]
      exact hb1
    have hb0 : getBind st id0 b = some (some (BVal.str oldId)) := by
      unfold getBind
      rw [hs]
      exact congrArg some hold
    constructor
    · rw [decide_eq_true_eq, hfin, hb0]
      exact hnoteq
    · rw [decide_eq_false_iff_not, hfin, hb1]
      exact fun hcon => hcon rfl
  · intro hd
    have heq : getB (swapNode fails id0 n oldId newId styleType).1 b = getB n b := by
      have hx := of_decide_eq_false hd
      by_cases hy : getB (swapNode fails id0 n oldId newId styleType).1 b = getB n b
      · exact hy
      · exact absurd hy hx
    have hsame : getBind (updateStore st id0
        (swapNode fails id0 n oldId newId styleType).1) id0 b = getBind st id0 b := by
      unfold getBind
      rw [hupd0, hs]
      exact congrArg some heq
    rw [hsame]

theorem swapGo_count (fails : FailOracle) (oldId newId styleType : String)
    (hne : oldId ≠ newId) :
    ∀ (l : List String) (st : Store) (c : Nat),
      (swapGo fails oldId newId styleType st c l).2 =
        c + ∑ id ∈ l.toFinset,
          changedAt st (swapGo fails oldId newId styleType st c l).1 id := by
  intro l
  induction l with
  | nil =>
    intro st c
    simp [swapGo]
  | cons id0 rest ih =>
    intro st c
    rw [List.toFinset_cons]
    cases hs : st id0 with
    | none =>
      have hstep : swapGo fails oldId newId styleType st c (id0 :: rest) =
          swapGo fails oldId newId styleType st c rest := by
        simp only [swapGo, hs]
      rw [hstep, ih st c]
      have hz : changedAt st (swapGo fails oldId newId styleType st c rest).1 id0 = 0 :=
        changedAt_zero_of_eq _ _ _
          (by rw [swapGo_dead fails oldId newId styleType rest st c id0 hs, hs])
      by_cases hmem : id0 ∈ rest.toFinset
      · rw [Finset.insert_eq_self.mpr hmem]
      · rw [Finset.sum_insert hmem, hz, Nat.zero_add]
    | some n =>
      have hstep : swapGo fails oldId newId styleType st c (id0 :: rest) =
          swapGo fails oldId newId styleType
            (updateStore st id0 (swapNode fails id0 n oldId newId styleType).1)
            (c + (swapNode fails id0 n oldId newId styleType).2) rest := by
        simp only [swapGo, hs]
      rw [hstep]
      rw [ih (updateStore st id0 (swapNode fails id0 n oldId newId styleType).1)
            (c + (swapNode fails id0 n oldId newId styleType).2)]
      have hupd0 : (updateStore st id0 (swapNode fails id0 n oldId newId styleType).1) id0 =
          some (swapNode fails id0 n oldId newId styleType).1 := by
        unfold updateStore
        rw [if_pos rfl]
      have hupdne : ∀ id, id ≠ id0 →
          (updateStore st id0 (swapNode fails id0 n oldId newId styleType).1) id = st id := by
        intro id hid
        unfold updateStore
        rw [if_neg hid]
      have htri : changedAt st
          (swapGo fails oldId newId styleType
            (updateStore st id0 (swapNode fails id0 n oldId newId styleType).1)
            (c + (swapNode fails id0 n oldId newId styleType).2) rest).1 id0 =
          changedAt (updateStore st id0 (swapNode fails id0 n oldId newId styleType).1)
            (swapGo fails oldId newId styleType
              (updateStore st id0 (swapNode fails id0 n oldId newId styleType).1)
              (c + (swapNode fails id0 n oldId newId styleType).2) rest).1 id0 +
          (swapNode fails id0 n oldId newId styleType).2 := by
        apply changedAt_triangle fails oldId newId styleType hne st id0 n hs
        intro b hb
        exact swapGo_freeze fails oldId newId styleType rest _ _ id0 b hb
      by_cases hmem : id0 ∈ rest.toFinset
      · rw [Finset.insert_eq_self.mpr hmem]
        rw [← Finset.add_sum_erase rest.toFinset _ hmem,
            ← Finset.add_sum_erase rest.toFinset
              (changedAt st (swapGo fails oldId newId styleType
                (updateStore st id0 (swapNode fails id0 n oldId newId styleType).1)
                (c + (swapNode fails id0 n oldId newId styleType).2) rest).1) hmem]
        have hsum : ∑ id ∈ rest.toFinset.erase id0,
            changedAt (updateStore st id0 (swapNode fails id0 n oldId newId styleType).1)
              (swapGo fails oldId newId styleType
                (updateStore st id0 (swapNode fails id0 n oldId newId styleType).1)
                (c + (swapNode fails id0 n oldId newId styleType).2) rest).1 id =
          ∑ id ∈ rest.toFinset.erase id0,
            changedAt st (swapGo fails oldId newId styleType
              (updateStore st id0 (swapNode fails id0 n oldId newId styleType).1)
              (c + (swapNode fails id0 n oldId newId styleType).2) rest).1 id := by
          apply Finset.sum_congr rfl
          intro id hid
          exact (changedAt_congr_base _ _ _ _
            (hupdne id (Finset.mem_erase.mp hid).1).symm).symm
        rw [hsum, htri]
        omega
      · rw [Finset.sum_insert hmem]
        have hnl : id0 ∉ rest := fun hc => hmem (List.mem_toFinset.mpr hc)
        have hz1 : changedAt (updateStore st id0
            (swapNode fails id0 n oldId newId styleType).1)
            (swapGo fails oldId newId styleType
              (updateStore st id0 (swapNode fails id0 n oldId newId styleType).1)
              (c + (swapNode fails id0 n oldId newId styleType).2) rest).1 id0 = 0 :=
          changedAt_zero_of_eq _ _ _
            (swapGo_unlisted fails oldId newId styleType rest _ _ id0 hnl)
        have hsum : ∑ id ∈ rest.toFinset,
            changedAt (updateStore st id0 (swapNode fails id0 n oldId newId styleType).1)
              (swapGo fails oldId newId styleType
                (updateStore st id0 (swapNode fails id0 n oldId newId styleType).1)
                (c + (swapNode fails id0 n oldId newId styleType).2) rest).1 id =
          ∑ id ∈ rest.toFinset,
            changedAt st (swapGo fails oldId newId styleType
              (updateStore st id0 (swapNode fails id0 n oldId newId styleType).1)
              (c + (swapNode fails id0 n oldId newId styleType).2) rest).1 id := by
          apply Finset.sum_congr rfl
          intro id hid
          have hidne : id ≠ id0 := fun he => hmem (he ▸ hid)
          exact (changedAt_congr_base _ _ _ _ (hupdne id hidne).symm).symm
        rw [hsum, htri, hz1]
        omega

theorem swapGo_preserve_stable (fails : FailOracle) (oldId newId styleType : String) :
    ∀ (l : List String) (st : Store) (c : Nat) (id : String) (n : NodeState),
      st id = some n → swapNode fails id n oldId newId styleType = (n, 0) →
      (swapGo fails oldId newId styleType st c l).1 id = some n := by
  intro l
  induction l with
  | nil => intro st c id n h _; exact h
  | cons id0 rest ih =>
    intro st c id n h hstab
    cases hs : st id0 with
    | none =>
      have hstep : swapGo fails oldId newId styleType st c (id0 :: rest) =
          swapGo fails oldId newId styleType st c rest := by
        simp only [swapGo, hs]
      rw [hstep]
      exact ih st c id n h hstab
    | some n0 =>
      have hstep : swapGo fails oldId newId styleType st c (id0 :: rest) =
          swapGo fails oldId newId styleType
            (updateStore st id0 (swapNode fails id0 n0 oldId newId styleType).1)
            (c + (swapNode fails id0 n0 oldId newId styleType).2) rest := by
        simp only [swapGo, hs]
      rw [hstep]
      by_cases hid : id0 = id
      · have hsid : st id = some n0 := hid ▸ hs
        have hn0 : n0 = n := Option.some.inj (hsid.symm.trans h)
        apply ih _ _ id n _ hstab
        unfold updateStore
        rw [if_pos hid.symm, hid, hn0, hstab]
      · apply ih _ _ id n _ hstab
        unfold updateStore
        rw [if_neg (fun he => hid he.symm)]
        exact h

theorem swapNode_stable (fails : FailOracle) (id oldId newId styleType : String)
    (hne : oldId ≠ newId) (n : NodeState) :
    swapNode fails id ((swapNode fails id n oldId newId styleType).1)
        oldId newId styleType =
      ((swapNode fails id n oldId newId styleType).1, 0) := by
  unfold swapNode
  exact swapFieldsGo_stable fails id oldId newId hne (relevantFields styleType)
    (relevantFields_nodup styleType) n 0 0

theorem swapGo_stableOn (fails : FailOracle) (oldId newId styleType : String)
    (hne : oldId ≠ newId) :
    ∀ (l : List String) (st : Store) (c : Nat) (id : String), id ∈ l →
      ∀ n, (swapGo fails oldId newId styleType st c l).1 id = some n →
      swapNode fails id n oldId newId styleType = (n, 0) := by
  intro l
  induction l with
  | nil => intro st c id hid; exact absurd hid (List.not_mem_nil id)
  | cons id0 rest ih =>
    intro st c id hid n hres
    cases hs : st id0 with
    | none =>
      have hstep : swapGo fails oldId newId styleType st c (id0 :: rest) =
          swapGo fails oldId newId styleType st c rest := by
        simp only [swapGo, hs]
      rw [hstep] at hres
      rcases List.mem_cons.mp hid with hid0 | hmem
      · subst hid0
        rw [swapGo_dead fails oldId newId styleType rest st c id hs] at hres
        exact Option.noConfusion hres
      · exact ih st c id hmem n hres
    | some n0 =>
      have hstep : swapGo fails oldId newId styleType st c (id0 :: rest) =
          swapGo fails oldId newId styleType
            (updateStore st id0 (swapNode fails id0 n0 oldId newId styleType).1)
            (c + (swapNode fails id0 n0 oldId newId styleType).2) rest := by
        simp only [swapGo, hs]
      rw [hstep] at hres
      rcases List.mem_cons.mp hid with hid0 | hmem
      · subst hid0
        have hstab := swapNode_stable fails id oldId newId styleType hne n0
        have hpres := swapGo_preserve_stable fails oldId newId styleType rest
          (updateStore st id (swapNode fails id n0 oldId newId styleType).1)
          (c + (swapNode fails id n0 oldId newId styleType).2) id
          (swapNode fails id n0 oldId newId styleType).1
          (by unfold updateStore; rw [if_pos rfl]) hstab
        rw [hpres] at hres
        have hn : n = (swapNode fails id n0 oldId newId styleType).1 :=
          (Option.some.inj hres).symm
        rw [hn]
        exact hstab
      · exact ih _ _ id hmem n hres

theorem swapGo_noop (fails : FailOracle) (oldId newId styleType : String) :
    ∀ (l : List String) (st : Store) (c : Nat),
      (∀ id ∈ l, ∀ n, st id = some n →
        swapNode fails id n oldId newId styleType = (n, 0)) →
      swapGo fails oldId newId styleType st c l = (st, c) := by
  intro l
  induction l with
  | nil => intro st c _; rfl
  | cons id0 rest ih =>
    intro st c h
    cases hs : st id0 with
    | none =>
      have hstep : swapGo fails oldId newId styleType st c (id0 :: rest) =
          swapGo fails oldId newId styleType st c rest := by
        simp only [swapGo, hs]
      rw [hstep]
      exact ih st c (fun id hid => h id (List.mem_cons_of_mem id0 hid))
    | some n0 =>
      have hstab := h id0 (List.mem_cons_self id0 rest) n0 hs
      have hstep : swapGo fails oldId newId styleType st c (id0 :: rest) =
          swapGo fails oldId newId styleType
            (updateStore st id0 (swapNode fails id0 n0 oldId newId styleType).1)
            (c + (swapNode fails id0 n0 oldId newId styleType).2) rest := by
        simp only [swapGo, hs]
      have hupd : updateStore st id0 (swapNode fails id0 n0 oldId newId styleType).1 = st := by
        funext x
        unfold updateStore
        by_cases hx : x = id0
        · subst hx
          rw [if_pos rfl, hstab, hs]
        · rw [if_neg hx]
      rw [hstep, hupd, hstab]
      exact ih st c (fun id hid => h id (List.mem_cons_of_mem id0 hid))

/-! ### Concrete store, oracle and document for witnesses -/

/-- A rectangle node whose fill and stroke bindings reference style S:1 and
whose paint list is concrete. -/
def w1Node : NodeState :=
  ⟨some (BVal.str "S:1"), some (BVal.str "S:1"), none, none, none,
   "RECTANGLE", some (MixedOr.val "solid-red"),
   MixedOr.mixed, MixedOr.mixed, MixedOr.mixed, MixedOr.mixed,
   MixedOr.mixed, MixedOr.mixed, none, none⟩

/-- A one-node store holding `w1Node` at id L1. -/
def w1Store : Store := fun x => if x = "L1" then some w1Node else none

/-- The oracle under which no setter throws. -/
def noFails : FailOracle := fun _ _ => false

/-! ### Claim theorems about `swapStyle` -/

/-- C4, as stated: a rebind repeated with identical arguments returns 0 the
second time. Refuted when the old and new identifiers coincide: rebinding
S:1 to S:1 on a layer bound to S:1 succeeds with a positive count, and the
second identical call returns the same positive count, not 0, because the
binding still equals the old identifier. -/
theorem rebind_twice_same_args_cex :
    0 < (swapStyle noFails w1Store ["L1"] "S:1" "S:1" "FILL").2 ∧
      (swapStyle noFails
        (swapStyle noFails w1Store ["L1"] "S:1" "S:1" "FILL").1
        ["L1"] "S:1" "S:1" "FILL").2 ≠ 0 := by
  decide

/-- C4, amended: provided the new identifier differs from the old one, a
second rebind call with the same arguments (and the same deterministic
setter behaviour, with no external mutation in between) changes no binding
and returns 0. -/
theorem rebind_idempotent_of_ne (fails : FailOracle) (st : Store)
    (layerIds : List String) (oldId newId styleType : String)
    (hne : oldId ≠ newId) :
    swapStyle fails (swapStyle fails st layerIds oldId newId styleType).1
        layerIds oldId newId styleType =
      ((swapStyle fails st layerIds oldId newId styleType).1, 0) := by
  unfold swapStyle
  apply swapGo_noop
  intro id hid n hn
  exact swapGo_stableOn fails oldId newId styleType hne layerIds st 0 id hid n hn

/-- Witness for the amended C4 at a concrete store. -/
theorem rebind_idempotent_of_ne_witness :
    swapStyle noFails (swapStyle noFails w1Store ["L1"] "S:1" "S:2" "FILL").1
        ["L1"] "S:1" "S:2" "FILL" =
      ((swapStyle noFails w1Store ["L1"] "S:1" "S:2" "FILL").1, 0) :=
  rebind_idempotent_of_ne noFails w1Store ["L1"] "S:1" "S:2" "FILL" (by decide)

/-- C6: in a rebind, dead layer ids are silently skipped; a binding changes
only if its current value equals the old identifier (and then it becomes the
new identifier); bindings outside the kind's slots (both fill and stroke for
Fill, the single corresponding slot otherwise) are never touched; and when
the identifiers differ the returned count is the total number of individual
bindings changed across the store, not the number of layers touched. -/
theorem swapStyle_contract (fails : FailOracle) (st : Store) (layerIds : List String)
    (oldId newId styleType : String) :
    (∀ id, st id = none →
        swapStyle fails st (id :: layerIds) oldId newId styleType =
          swapStyle fails st layerIds oldId newId styleType)
    ∧ (∀ id b,
        getBind (swapStyle fails st layerIds oldId newId styleType).1 id b
            ≠ getBind st id b →
        getBind st id b = some (some (BVal.str oldId)) ∧
          getBind (swapStyle fails st layerIds oldId newId styleType).1 id b
            = some (some (BVal.str newId)))
    ∧ (∀ id b, b ∉ relevantFields styleType →
        getBind (swapStyle fails st layerIds oldId newId styleType).1 id b
          = getBind st id b)
    ∧ (oldId ≠ newId →
        (swapStyle fails st layerIds oldId newId styleType).2 =
          ∑ id ∈ layerIds.toFinset,
            changedAt st (swapStyle fails st layerIds oldId newId styleType).1 id) := by
  refine ⟨?_, ?_, ?_, ?_⟩
  · intro id h
    unfold swapStyle
    simp only [swapGo, h]
  · intro id b h
    exact swapGo_changed_store fails oldId newId styleType layerIds st 0 id b h
  · intro id b h
    exact swapGo_notrelevant fails oldId newId styleType layerIds st 0 id b h
  · intro hne
    have h := swapGo_count fails oldId newId styleType hne layerIds st 0
    simpa using h

/-- Witness for C6: a dead id is skipped and the count equals the number of
changed bindings on a concrete store. -/
theorem swapStyle_contract_witness :
    swapStyle noFails w1Store ("Lx" :: ["L1"]) "S:1" "S:2" "FILL" =
        swapStyle noFails w1Store ["L1"] "S:1" "S:2" "FILL"
      ∧ (swapStyle noFails w1Store ["L1"] "S:1" "S:2" "FILL").2 =
        ∑ id ∈ (["L1"] : List String).toFinset,
          changedAt w1Store (swapStyle noFails w1Store ["L1"] "S:1" "S:2" "FILL").1 id :=
  ⟨(swapStyle_contract noFails w1Store ["L1"] "S:1" "S:2" "FILL").1 "Lx" (by decide),
   (swapStyle_contract noFails w1Store ["L1"] "S:1" "S:2" "FILL").2.2.2 (by decide)⟩

/-! ### C1: fill and stroke sharing one remote id -/

theorem checkStyle_nonlocal (env : Env) (st : List RemoteStyleInfo) (rec : LayerRec)
    (k : StyleKind) (s : String) (h : isRemoteClass (env.getStyleById s) = true) :
    checkStyle env st rec (BVal.str s) k =
      recordRemote st s (classifiedName (env.getStyleById s)) k rec := by
  cases hr : env.getStyleById s with
  | found nm remote =>
    cases remote with
    | true => simp [checkStyle, classifiedName, hr]
    | false =>
      rw [hr] at h
      exact absurd h (by simp [isRemoteClass])
  | notFound => simp [checkStyle, classifiedName, hr]
  | err => simp [checkStyle, classifiedName, hr]

/-- C1: a node whose fill and stroke bindings hold the same identifier that
classifies as remote or unresolvable is recorded once per binding occurrence
— two records — in that style's single entry tagged kind FILL, and a rebind
of that old identifier with kind FILL (whose setters do not throw) returns
count 2 for that single node. -/
theorem sameId_fill_stroke_scan_and_rebind
    (env : Env) (fails : FailOracle) (store : Store)
    (S newId i nm t : String) (nst : NodeState)
    (hS : S ≠ "")
    (hrem : isRemoteClass (env.getStyleById S) = true)
    (hstore : store i = some nst)
    (hfill : nst.fillStyleId = some (BVal.str S))
    (hstroke : nst.strokeStyleId = some (BVal.str S))
    (hff : fails i BindingField.fill = false)
    (hfs : fails i BindingField.stroke = false) :
    findLayersWithRemoteStyles env
        [SceneNode.mk i nm t (some (BVal.str S)) (some (BVal.str S)) none none none []]
      = [⟨S, classifiedName (env.getStyleById S), StyleKind.FILL, [⟨i, nm, t⟩, ⟨i, nm, t⟩]⟩]
    ∧ (swapStyle fails store [i] S newId "FILL").2 = 2 := by
  have htr : bTruthy (BVal.str S) = true := by
    simp [bTruthy, hS]
  constructor
  · have h1 : checkOpt env [] ⟨i, nm, t⟩ (some (BVal.str S)) StyleKind.FILL =
        [⟨S, classifiedName (env.getStyleById S), StyleKind.FILL, [⟨i, nm, t⟩]⟩] := by
      simp only [checkOpt, htr, if_true]
      rw [checkStyle_nonlocal env [] _ _ S hrem]
      simp [recordRemote]
    have h2 : checkOpt env
        [⟨S, classifiedName (env.getStyleById S), StyleKind.FILL, [⟨i, nm, t⟩]⟩]
        ⟨i, nm, t⟩ (some (BVal.str S)) StyleKind.FILL =
          [⟨S, classifiedName (env.getStyleById S), StyleKind.FILL,
            [⟨i, nm, t⟩, ⟨i, nm, t⟩]⟩] := by
      simp only [checkOpt, htr, if_true]
      rw [checkStyle_nonlocal env _ _ _ S hrem]
      simp [recordRemote]
    have hnone : ∀ (st : List RemoteStyleInfo) (k : StyleKind),
        checkOpt env st ⟨i, nm, t⟩ none k = st := fun _ _ => rfl
    show traverseList env [] _ = _
    rw [traverseList, traverse, traverseList, h1, h2, hnone, hnone, hnone]
    rfl
  · have hgs : getB (setB nst BindingField.fill (BVal.str newId)) BindingField.stroke
        = some (BVal.str S) := by
      rw [getB_setB_ne _ _ _ _ (by decide)]
      exact hstroke
    have hsn : (swapNode fails i nst S newId "FILL").2 = 2 := by
      show (swapFieldsGo fails i S newId (relevantFields "FILL") nst 0).2 = 2
      have hrel : relevantFields "FILL" = [BindingField.fill, BindingField.stroke] := rfl
      rw [hrel]
      have hgf : getB nst BindingField.fill = some (BVal.str S) := hfill
      simp only [swapFieldsGo, hgf, hgs, hff, hfs, if_pos rfl, Bool.false_eq_true,
        if_false, if_true]
    have hstep : swapGo fails S newId "FILL" store 0 [i] =
        (updateStore store i (swapNode fails i nst S newId "FILL").1,
         0 + (swapNode fails i nst S newId "FILL").2) := by
      simp only [swapGo, hstore]
    show (swapGo fails S newId "FILL" store 0 [i]).2 = 2
    rw [hstep]
    simp [hsn]

/-- Witness for C1: a rectangle with fill and stroke both on unresolvable
S:1 yields one FILL entry with two identical layer records, and the rebind
counts 2. -/
theorem sameId_fill_stroke_scan_and_rebind_witness :
    findLayersWithRemoteStyles cexEnv [cexNode]
        = [⟨"S:1", "Unknown Style (Remote)", StyleKind.FILL,
            [⟨"L1", "layer1", "RECTANGLE"⟩, ⟨"L1", "layer1", "RECTANGLE"⟩]⟩]
      ∧ (swapStyle noFails w1Store ["L1"] "S:1" "S:2" "FILL").2 = 2 :=
  sameId_fill_stroke_scan_and_rebind cexEnv noFails w1Store "S:1" "S:2"
    "L1" "layer1" "RECTANGLE" w1Node
    (by decide) (by decide) (by decide) (by decide) (by decide) (by decide) (by decide)

/-! ### C3: materialization -/

theorem importLoop_noqual (store : Store) (copyFails : String → Bool)
    (styleType styleName : String) (freshIds : Nat → String) :
    ∀ (ids : List String) (k : Nat) (ns : Option CreatedStyle) (cr : List CreatedStyle),
      (∀ id ∈ ids, qualifies store styleType id = false) →
      importLoop store copyFails styleType styleName freshIds ids k ns cr = (ns, cr) := by
  intro ids
  induction ids with
  | nil => intro k ns cr _; rfl
  | cons id rest ih =>
    intro k ns cr h
    have hq := h id (List.mem_cons_self id rest)
    cases hs : store id with
    | none =>
      simp only [importLoop, hs]
      exact ih k ns cr (fun x hx => h x (List.mem_cons_of_mem id hx))
    | some n =>
      have hq' : (extractProps n styleType).isSome = false := by
        simpa [qualifies, hs] using hq
      have hp : extractProps n styleType = none := by
        cases hep : extractProps n styleType with
        | none => rfl
        | some p => rw [hep] at hq'; simp at hq'
      simp only [importLoop, hs, hp]
      exact ih k ns cr (fun x hx => h x (List.mem_cons_of_mem id hx))

theorem importLoop_last (store : Store) (copyFails : String → Bool)
    (styleType styleName : String) (freshIds : Nat → String) :
    ∀ (ids : List String) (k : Nat) (ns : Option CreatedStyle) (cr : List CreatedStyle),
      ns = cr.getLast? →
      (importLoop store copyFails styleType styleName freshIds ids k ns cr).1 =
        (importLoop store copyFails styleType styleName freshIds ids k ns cr).2.getLast? := by
  intro ids
  induction ids with
  | nil => intro k ns cr h; exact h
  | cons id rest ih =>
    intro k ns cr h
    cases hs : store id with
    | none =>
      simp only [importLoop, hs]
      exact ih k ns cr h
    | some n =>
      cases hp : extractProps n styleType with
      | none =>
        simp only [importLoop, hs, hp]
        exact ih k ns cr h
      | some p =>
        by_cases hf : copyFails id = true
        · simp only [importLoop, hs, hp, if_pos hf]
          apply ih
          rw [List.getLast?_concat]
        · simp only [importLoop, hs, hp, if_neg hf]
          rw [List.getLast?_concat]

theorem importLoop_single (store : Store) (copyFails : String → Bool)
    (styleType styleName : String) (freshIds : Nat → String) :
    ∀ (ids : List String), (∀ id ∈ ids, copyFails id = false) →
      ∀ (k : Nat) (ns : Option CreatedStyle) (cr : List CreatedStyle),
        ((importLoop store copyFails styleType styleName freshIds ids k ns cr).2).length
          ≤ cr.length + 1 := by
  intro ids
  induction ids with
  | nil =>
    intro _ k ns cr
    simp [importLoop]
  | cons id rest ih =>
    intro h k ns cr
    cases hs : store id with
    | none =>
      simp only [importLoop, hs]
      exact ih (fun x hx => h x (List.mem_cons_of_mem id hx)) k ns cr
    | some n =>
      cases hp : extractProps n styleType with
      | none =>
        simp only [importLoop, hs, hp]
        exact ih (fun x hx => h x (List.mem_cons_of_mem id hx)) k ns cr
      | some p =>
        have hf : copyFails id = false := h id (List.mem_cons_self id rest)
        simp only [importLoop, hs, hp, hf, Bool.false_eq_true, if_false]
        simp

/-- A two-node store: both L1 and L2 hold `w1Node`, a qualifying FILL donor
bound to S:1. -/
def w2Store : Store :=
  fun x => if x = "L1" then some w1Node else if x = "L2" then some w1Node else none

/-- A copy oracle under which the property copy onto a fresh style throws
exactly when the donor is L1. -/
def copyFailsL1 : String → Bool := fun x => x == "L1"

/-- A copy oracle under which no property copy throws. -/
def noCopyFails : String → Bool := fun _ => false

/-- A concrete supply of host-assigned fresh style ids. -/
def cexFreshIds : Nat → String := fun k => if k = 0 then "S:new0" else "S:new1"

/-- C3, as stated: at most one new local style is created per materialize
call. Refuted: with two qualifying donors where the property copy onto the
freshly created style throws for the first donor, the catch swallows the
fault after `figma.create*Style()` already ran, the loop continues, and the
second donor triggers a second creation — one call creates two styles. -/
theorem importRemoteStyle_two_creations_cex :
    1 < (importRemoteStyle noFails copyFailsL1 w2Store ["L1", "L2"] "FILL" "Recovered"
          "S:1" cexFreshIds).1.length := by
  decide

/-- C3, amended: a materialize call creates at most one new local style
provided no property copy onto a created style throws for the listed layers
(a copy fault after a creation leaves that style behind and the loop
continues to the next donor); when no listed layer qualifies as a donor for
the requested kind, no style is created and the call reports 0 changes with
the store untouched; and whenever styles were created, the result is
exactly the rebind of the old identifier applied across the entire original
layer-id list with the last-created style's identifier as the new
binding. -/
theorem importRemoteStyle_contract (fails : FailOracle) (copyFails : String → Bool)
    (store : Store) (layerIds : List String)
    (styleType styleName oldId : String) (freshIds : Nat → String) :
    ((∀ id ∈ layerIds, copyFails id = false) →
      (importRemoteStyle fails copyFails store layerIds styleType styleName oldId
        freshIds).1.length ≤ 1)
    ∧ (layerIds.all (fun id => !(qualifies store styleType id)) = true →
        importRemoteStyle fails copyFails store layerIds styleType styleName oldId freshIds
          = ([], store, 0))
    ∧ (∀ cs,
        (importRemoteStyle fails copyFails store layerIds styleType styleName oldId
            freshIds).1.getLast? = some cs →
        (importRemoteStyle fails copyFails store layerIds styleType styleName oldId
            freshIds).2 =
          swapStyle fails store layerIds oldId cs.id styleType) := by
  cases hpr : importLoop store copyFails styleType styleName freshIds layerIds 0 none []
    with
  | mk ns created =>
    have hr1 : (importRemoteStyle fails copyFails store layerIds styleType styleName
        oldId freshIds).1 = created := by
      cases ns with
      | some cs => simp [importRemoteStyle, hpr]
      | none => simp [importRemoteStyle, hpr]
    refine ⟨?_, ?_, ?_⟩
    · intro hnf
      rw [hr1]
      have h := importLoop_single store copyFails styleType styleName freshIds
        layerIds hnf 0 none []
      rw [hpr] at h
      simpa using h
    · intro hall
      have hq : ∀ id ∈ layerIds, qualifies store styleType id = false := by
        intro id hid
        have := List.all_eq_true.mp hall id hid
        simpa using this
      have h0 := importLoop_noqual store copyFails styleType styleName freshIds
        layerIds 0 none [] hq
      simp [importRemoteStyle, h0]
    · intro cs hcs
      have hlast := importLoop_last store copyFails styleType styleName freshIds
        layerIds 0 none [] rfl
      rw [hpr] at hlast
      rw [hr1] at hcs
      cases ns with
      | none =>
        rw [← hlast] at hcs
        exact Option.noConfusion hcs
      | some cs0 =>
        have hcs0 : cs0 = cs := by
          rw [hcs] at hlast
          exact Option.some.inj hlast
        subst hcs0
        simp [importRemoteStyle, hpr]

/-- Witness for the amended C3 at a concrete donor store with fault-free
copies: at most one style is created and the rebind targets the created
style's id. -/
theorem importRemoteStyle_contract_witness :
    ((importRemoteStyle noFails noCopyFails w1Store ["L1"] "FILL" "Recovered" "S:1"
        cexFreshIds).1.length ≤ 1)
    ∧ (importRemoteStyle noFails noCopyFails w1Store ["L1"] "FILL" "Recovered" "S:1"
        cexFreshIds).2 =
      swapStyle noFails w1Store ["L1"] "S:1" "S:new0" "FILL" :=
  ⟨(importRemoteStyle_contract noFails noCopyFails w1Store ["L1"] "FILL" "Recovered"
      "S:1" cexFreshIds).1 (by decide),
   ((importRemoteStyle_contract noFails noCopyFails w1Store ["L1"] "FILL" "Recovered"
      "S:1" cexFreshIds).2.2
      ⟨"FILL", "S:new0", "Recovered", some "solid-red"⟩ (by decide))⟩

end RemoteStyleManager
